import Mathlib

/-!
# promtail-client: the protobuf client of `promtail/protoclient.go`

A shallow embedding of `Client.log`, `Client.run` and `Client.send`.

* The background goroutine `Client.run` is a `select` loop over three channels.
  One loop iteration is the function `iteration`; the order in which the
  channels deliver is the input (a list of events), so every interleaving of
  record arrivals, timer fires and the quit signal is covered.
* Side effects (printing, calls of `send`, HTTP posts, timer re-arms, the
  wait-group release, channel sends) are recorded, in program order, as a list
  of `Effect`.
* What the network does with a batch is an input as well: every event carries
  the `Outcome` the transmitter would meet if `send` were called while that
  event is handled.
* Go `int` is taken as 64 bit twos complement; `batchSize++` wraps. The field
  `BatchEntriesNumber` is a Go `int`, which is what the hypothesis
  `cfg.BatchEntriesNumber ≤ intMax` of the theorems on the loop says.
-/

namespace Promtail

/-! ## Data model -/

/-- Modelled from the spec: the type `LogLevel` is declared outside `protoclient.go`.
The spec describes it as a totally ordered enumeration represented by ordinal
values and compared with `level >= threshold`; it is an integer here. -/
abbrev LogLevel := Int

/-- Modelled from the spec: the constant `DEBUG`, lowest of `DEBUG < INFO < WARN < ERROR`. -/
def DEBUG : LogLevel := 0

/-- Modelled from the spec: the constant `INFO`. -/
def INFO : LogLevel := 1

/-- Modelled from the spec: the constant `WARN`. -/
def WARN : LogLevel := 2

/-- Modelled from the spec: the constant `ERROR`, highest of the four severities. -/
def ERROR : LogLevel := 3

/-- Modelled from the spec: the struct `ClientConfig` is declared outside
`protoclient.go`; these are the six fields the code reads. `BatchWait` is a
`time.Duration` (nanoseconds), `BatchEntriesNumber` a Go `int`. -/
structure ClientConfig where
  PushURL : String
  Labels : String
  BatchWait : Int
  BatchEntriesNumber : Int
  SendLevel : LogLevel
  PrintLevel : LogLevel
  deriving DecidableEq, Repr

/-- The protobuf `timestamp.Timestamp`: `Seconds` is an `int64`, `Nanos` an `int32`. -/
structure Timestamp where
  Seconds : Int
  Nanos : Int
  deriving DecidableEq, Repr

/-- The protobuf `logproto.Entry`. -/
structure Entry where
  Timestamp : Timestamp
  Line : String
  deriving DecidableEq, Repr

/-- The struct `protoLogEntry`: an entry together with its severity. -/
structure protoLogEntry where
  entry : Entry
  level : LogLevel
  deriving DecidableEq, Repr

/-- A value stored in the `map[string]interface{}` handed to the intake calls. -/
inductive Value where
  | str (s : String)
  | num (n : Int)
  | bool (b : Bool)
  deriving DecidableEq, Repr

/-- The contents of a `map[string]interface{}`, as an association list with at
most one pair per key in use. -/
abbrev Data := List (String × Value)

/-- The map assignment `data[k] = v` on a map that is not nil. -/
def setKey (data : Data) (k : String) (v : Value) : Data :=
  (k, v) :: data.filter (fun p => p.1 ≠ k)

/-- What happens to one call of `send`: `proto.Marshal` fails, or `sendJsonReq`
fails, or it returns a response with a status code and a body. -/
inductive Outcome where
  | marshalError (err : String)
  | transportError (err : String)
  | response (status : Int) (body : String)
  deriving DecidableEq, Repr

/-- The observable actions of the client, recorded in program order. -/
inductive Effect where
  /-- The channel send `c.entries <- r` of `log`. -/
  | enqueue (r : protoLogEntry)
  /-- The call `log.Print(entry.entry.Line)` of `run`. -/
  | print (line : String)
  /-- A call `log.Printf(...)` reporting a failure. -/
  | printf (msg : String)
  /-- A call `c.send(entries)`: the batch handed to the transmitter. -/
  | send (entries : List Entry)
  /-- The request issued by `c.client.sendJsonReq("POST", url, ...)` for one stream. -/
  | post (url : String) (labels : String) (entries : List Entry)
  /-- The call `maxWait.Reset(d)`. -/
  | reset (d : Int)
  /-- The call `c.waitGroup.Done()`, which lets `Shutdown` return. -/
  | done
  deriving DecidableEq, Repr

/-- The three cases of the `select` statement of `run`. -/
inductive Event where
  | quit
  | entry (e : protoLogEntry)
  | timer
  deriving DecidableEq, Repr

/-- The local variables `batch` and `batchSize` of `run`. -/
structure State where
  batch : List Entry
  batchSize : Int
  deriving DecidableEq, Repr

/-! ## Machine integers -/

/-- Conversion of an integer to `w` bit twos complement. -/
def wrapSigned (w : Nat) (x : Int) : Int :=
  (x + 2 ^ (w - 1)) % 2 ^ w - 2 ^ (w - 1)

/-- Largest value of a Go `int` (64 bit). -/
def intMax : Int := 2 ^ 63 - 1

/-- The constant `int64(time.Second)`: nanoseconds in a second. -/
def second : Int := 1000000000

/-! ## `Client.log` and the four intake calls -/

/-- The timestamp literal built in `log` from `now := time.Now().UnixNano()`:
`now / int64(time.Second)` and `int32(now % int64(time.Second))`, Go division
and remainder truncating toward zero. -/
def mkTimestamp (now : Int) : Timestamp :=
  { Seconds := Int.tdiv now second
    Nanos := wrapSigned 32 (Int.tmod now second) }

/-- How a call of `log` ends: it returns, leaving the map argument as given
here and having performed the effects, or it stops with a run-time panic. -/
inductive LogResult where
  | returned (data : Option Data) (effects : List Effect)
  | panicked (msg : String)
  deriving DecidableEq, Repr

/-- The effects of a call of `log`. -/
def LogResult.effects : LogResult → List Effect
  | .returned _ effs => effs
  | .panicked _ => []

/-- The method `Client.log`. The map argument is `none` for the nil map, on
which the assignment `data["level"] = levelText` panics. `marshal` stands for
`json.MarshalIndent(data, "", "    ")` and `now` for the reading of
`time.Now().UnixNano()`. -/
def log (cfg : ClientConfig) (marshal : Data → Except String String) (now : Int)
    (level : LogLevel) (levelText : String) (data : Option Data) : LogResult :=
  if cfg.SendLevel ≤ level ∨ cfg.PrintLevel ≤ level then
    match data with
    | none => LogResult.panicked "assignment to entry in nil map"
    | some pairs =>
      let data1 := setKey pairs "level" (Value.str levelText)
      match marshal data1 with
      | .error err =>
        LogResult.returned (some data1) [Effect.printf ("unable to marshal log data: " ++ err)]
      | .ok buf =>
        LogResult.returned (some data1)
          [Effect.enqueue { entry := { Timestamp := mkTimestamp now, Line := buf }, level := level }]
  else
    LogResult.returned data []

/-- The method `Client.Debug`. -/
def Debug (cfg : ClientConfig) (marshal : Data → Except String String) (now : Int)
    (data : Option Data) : LogResult :=
  log cfg marshal now DEBUG "debug" data

/-- The method `Client.Info`. -/
def Info (cfg : ClientConfig) (marshal : Data → Except String String) (now : Int)
    (data : Option Data) : LogResult :=
  log cfg marshal now INFO "info" data

/-- The method `Client.Warn`. -/
def Warn (cfg : ClientConfig) (marshal : Data → Except String String) (now : Int)
    (data : Option Data) : LogResult :=
  log cfg marshal now WARN "warning" data

/-- The method `Client.Error`. -/
def Error (cfg : ClientConfig) (marshal : Data → Except String String) (now : Int)
    (data : Option Data) : LogResult :=
  log cfg marshal now ERROR "error" data

/-! ## `Client.send` -/

/-- The method `Client.send`: one stream with the configured labels and the
given entries is marshalled, compressed and posted; each of the three failure
branches logs and returns. The function has no result and touches no variable
of `run`. -/
def send (cfg : ClientConfig) (entries : List Entry) (o : Outcome) : List Effect :=
  Effect.send entries ::
    match o with
    | .marshalError err =>
      [Effect.printf ("promtail.ClientProto: unable to marshal: " ++ err)]
    | .transportError err =>
      [Effect.post cfg.PushURL cfg.Labels entries,
       Effect.printf ("promtail.ClientProto: unable to send an HTTP request: " ++ err)]
    | .response status body =>
      if status ≠ 204 then
        [Effect.post cfg.PushURL cfg.Labels entries,
         Effect.printf ("promtail.ClientProto: Unexpected HTTP status code: " ++ toString status
            ++ ", message: " ++ body)]
      else
        [Effect.post cfg.PushURL cfg.Labels entries]

/-! ## `Client.run` -/

/-- The variables of `run` before the loop: `var batch []*logproto.Entry`, `batchSize := 0`. -/
def initState : State := { batch := [], batchSize := 0 }

/-- The statements `batch = append(batch, entry.entry)` and `batchSize++`. -/
def appendEntry (st : State) (e : Entry) : State :=
  { batch := st.batch ++ [e], batchSize := wrapSigned 64 (st.batchSize + 1) }

/-- The statements `batch = []*logproto.Entry{}` and `batchSize = 0`. -/
def emptyState : State := { batch := [], batchSize := 0 }

/-- One pass through the `select` statement of `run` for the event received.
The first component is `none` when the case returns from `run`, and the next
values of `batch` and `batchSize` otherwise. -/
def iteration (cfg : ClientConfig) (st : State) (ev : Event) (o : Outcome) :
    Option State × List Effect :=
  match ev with
  | .quit => (none, [])
  | .entry e =>
    let shown := if cfg.PrintLevel ≤ e.level then [Effect.print e.entry.Line] else []
    if cfg.SendLevel ≤ e.level then
      let st1 := appendEntry st e.entry
      if cfg.BatchEntriesNumber ≤ st1.batchSize then
        (some emptyState, shown ++ send cfg st1.batch o ++ [Effect.reset cfg.BatchWait])
      else
        (some st1, shown)
    else
      (some st, shown)
  | .timer =>
    if 0 < st.batchSize then
      (some emptyState, send cfg st.batch o ++ [Effect.reset cfg.BatchWait])
    else
      (some st, [Effect.reset cfg.BatchWait])

/-- The deferred function of `run`, executed when `run` returns. -/
def deferred (cfg : ClientConfig) (st : State) (o : Outcome) : List Effect :=
  (if 0 < st.batchSize then send cfg st.batch o else []) ++ [Effect.done]

/-- The loop of `run` from given values of `batch` and `batchSize`, fed with
the events the `select` receives. The first component is `none` once `run`
has returned (events after the quit signal are never received) and the
variables of the loop, blocked in `select`, otherwise. The outcome paired with
the quit signal is the one met by the flush of the deferred function. -/
def runFrom (cfg : ClientConfig) : State → List (Event × Outcome) → Option State × List Effect
  | st, [] => (some st, [])
  | st, (ev, o) :: rest =>
    match iteration cfg st ev o with
    | (some st1, effs) =>
      let r := runFrom cfg st1 rest
      (r.1, effs ++ r.2)
    | (none, effs) => (none, effs ++ deferred cfg st o)

/-- The method `Client.run`: the loop from `batch` empty and `batchSize` zero.
The timer created by `time.NewTimer(c.config.BatchWait)` enters through the
timer events; its expiry is followed in `startClocked` and `timedIteration`. -/
def run (cfg : ClientConfig) (evs : List (Event × Outcome)) : Option State × List Effect :=
  runFrom cfg initState evs

/-! ## Observations on a list of effects and on a list of events -/

/-- The batches handed to `send`, in order. -/
def batches : List Effect → List (List Entry)
  | [] => []
  | Effect.send b :: rest => b :: batches rest
  | _ :: rest => batches rest

/-- The lines printed by `log.Print`, in order. -/
def printedLines : List Effect → List String
  | [] => []
  | Effect.print l :: rest => l :: printedLines rest
  | _ :: rest => printedLines rest

/-- The records put on the channel `c.entries`, in order. -/
def enqueued : List Effect → List protoLogEntry
  | [] => []
  | Effect.enqueue r :: rest => r :: enqueued rest
  | _ :: rest => enqueued rest

/-- The timer re-arms `maxWait.Reset(d)`, in order. -/
def resets : List Effect → List Int
  | [] => []
  | Effect.reset d :: rest => d :: resets rest
  | _ :: rest => resets rest

/-- The records the loop receives from `c.entries`: those delivered before the
quit signal. -/
def consumed : List (Event × Outcome) → List protoLogEntry
  | [] => []
  | (Event.quit, _) :: _ => []
  | (Event.entry e, _) :: rest => e :: consumed rest
  | (Event.timer, _) :: rest => consumed rest

/-- The entries of the records whose severity is at least `SendLevel`. -/
def sendable (cfg : ClientConfig) (rs : List protoLogEntry) : List Entry :=
  (rs.filter (fun r => cfg.SendLevel ≤ r.level)).map (fun r => r.entry)

/-- The lines of the records whose severity is at least `PrintLevel`. -/
def printable (cfg : ClientConfig) (rs : List protoLogEntry) : List String :=
  (rs.filter (fun r => cfg.PrintLevel ≤ r.level)).map (fun r => r.entry.Line)

/-! ## The flush timer against a clock

`time.NewTimer(d)` and `maxWait.Reset(d)` arm the timer to expire `d` after the
moment of the call; the channel `maxWait.C` delivers no earlier than the expiry. -/

/-- An event together with the clock reading at which the loop receives it. -/
structure Timed where
  now : Int
  ev : Event
  outcome : Outcome
  deriving DecidableEq, Repr

/-- The variables of the loop together with the expiry of the timer `maxWait`
and the clock reading of the last flush (of the start of `run` before the
first flush). -/
structure Clocked where
  st : State
  deadline : Int
  lastFlush : Int
  deriving DecidableEq, Repr

/-- The start of `run` at clock reading `t0`: `maxWait := time.NewTimer(c.config.BatchWait)`. -/
def startClocked (cfg : ClientConfig) (t0 : Int) : Clocked :=
  { st := initState, deadline := t0 + cfg.BatchWait, lastFlush := t0 }

/-- Whether a list of effects holds a call of `send`. -/
def flushed (effs : List Effect) : Bool :=
  !(batches effs).isEmpty

/-- Whether a list of effects holds a call of `maxWait.Reset`. -/
def rearmed (effs : List Effect) : Bool :=
  !(resets effs).isEmpty

/-- One pass through `select` at clock reading `te.now`: the pass of `iteration`,
with the expiry moved by `Reset` and the time of the last flush recorded. -/
def timedIteration (cfg : ClientConfig) (cs : Clocked) (te : Timed) :
    Option Clocked × List Effect :=
  match iteration cfg cs.st te.ev te.outcome with
  | (some st1, effs) =>
    (some { st := st1
            deadline := if rearmed effs then te.now + cfg.BatchWait else cs.deadline
            lastFlush := if flushed effs then te.now else cs.lastFlush }, effs)
  | (none, effs) => (none, effs)

/-- The loop against the clock; `none` once a quit signal has been received. -/
def timedRunFrom (cfg : ClientConfig) : Clocked → List Timed → Option Clocked
  | cs, [] => some cs
  | cs, te :: rest =>
    match (timedIteration cfg cs te).1 with
    | some cs1 => timedRunFrom cfg cs1 rest
    | none => none

/-- A timed sequence the loop can receive from clock reading `t` on: readings do
not decrease, and a timer event comes no earlier than the expiry of the timer. -/
def admissible (cfg : ClientConfig) : Clocked → Int → List Timed → Bool
  | _, _, [] => true
  | cs, t, te :: rest =>
    decide (t ≤ te.now) && (te.ev != Event.timer || decide (cs.deadline ≤ te.now)) &&
      match (timedIteration cfg cs te).1 with
      | some cs1 => admissible cfg cs1 te.now rest
      | none => true

/-- The pending count an event leaves to be flushed: the records accumulated so
far, plus the arriving record when it is to be sent. -/
def pendingAt (cfg : ClientConfig) (st : State) (ev : Event) : Int :=
  match ev with
  | .entry e => if cfg.SendLevel ≤ e.level then st.batch.length + 1 else st.batch.length
  | _ => st.batch.length

/-- The flush rule in the words of the specification: a flush is due when the
pending count reaches `BatchEntriesNumber`, or when `BatchWait` has elapsed
since the last flush while the pending count is nonzero. -/
def specFlushDue (cfg : ClientConfig) (cs : Clocked) (te : Timed) : Bool :=
  decide (cfg.BatchEntriesNumber ≤ pendingAt cfg cs.st te.ev) ||
    (decide (cfg.BatchWait ≤ te.now - cs.lastFlush) && decide (pendingAt cfg cs.st te.ev ≠ 0))

/-- The flush rule of the code: a flush is due when a record to be sent arrives
and brings the pending count to `BatchEntriesNumber` or more, or when the timer
fires while the pending count is nonzero. -/
def codeFlushDue (cfg : ClientConfig) (st : State) (ev : Event) : Bool :=
  match ev with
  | .quit => false
  | .entry e => decide (cfg.SendLevel ≤ e.level) && decide (cfg.BatchEntriesNumber ≤ st.batch.length + 1)
  | .timer => decide (st.batch ≠ [])

/-- The loop invariant of `run` between two events: the counter equals the
length of the accumulated batch, and the batch is empty or shorter than
`BatchEntriesNumber`. -/
def Inv (cfg : ClientConfig) (st : State) : Prop :=
  st.batchSize = st.batch.length ∧ (st.batch = [] ∨ (st.batch.length : Int) < cfg.BatchEntriesNumber)

/-- What is still held in the variables of the loop: the accumulated batch
while the loop runs, nothing once `run` has returned. -/
def held : Option State → List Entry
  | some st => st.batch
  | none => []

/-- The requests posted, in order. -/
def posts : List Effect → List (List Entry)
  | [] => []
  | Effect.post _ _ b :: rest => b :: posts rest
  | _ :: rest => posts rest

/-! ## Concrete configurations, records and event sequences -/

/-- A record with the given clock reading, line and severity. -/
def mkRecord (now : Int) (line : String) (level : LogLevel) : protoLogEntry :=
  { entry := { Timestamp := mkTimestamp now, Line := line }, level := level }

/-- The outcome of a transmission the server accepts. -/
def accepted : Outcome := Outcome.response 204 ""

/-- The outcome of a transmission the server refuses. -/
def refused : Outcome := Outcome.response 500 "overloaded"

/-- A rendering that always succeeds. -/
def renderOk (_ : Data) : Except String String := Except.ok "rendered"

/-- Scenario A of the specification: batches of two, one second of wait, `SendLevel = INFO`. -/
def cfgA : ClientConfig :=
  { PushURL := "http://loki/push", Labels := "job=demo", BatchWait := 1000000000,
    BatchEntriesNumber := 2, SendLevel := INFO, PrintLevel := ERROR }

/-- Scenario B of the specification: `SendLevel = ERROR`, `PrintLevel = DEBUG`. -/
def cfgB : ClientConfig :=
  { PushURL := "http://loki/push", Labels := "job=demo", BatchWait := 1000000000,
    BatchEntriesNumber := 2, SendLevel := ERROR, PrintLevel := DEBUG }

/-- A configuration with a wait of ten clock units and batches of two. -/
def cfgC : ClientConfig :=
  { PushURL := "http://loki/push", Labels := "job=demo", BatchWait := 10,
    BatchEntriesNumber := 2, SendLevel := INFO, PrintLevel := ERROR }

/-- Three `INFO` records. -/
def recE1 : protoLogEntry := mkRecord 1 "E1" INFO

def recE2 : protoLogEntry := mkRecord 2 "E2" INFO

def recE3 : protoLogEntry := mkRecord 3 "E3" INFO

/-- Scenario A: three records in quick succession, then a timer fire. -/
def traceA : List (Event × Outcome) :=
  [(Event.entry recE1, accepted), (Event.entry recE2, accepted),
   (Event.entry recE3, accepted), (Event.timer, accepted)]

/-- Three records, then the quit signal. -/
def traceQuit : List (Event × Outcome) :=
  [(Event.entry recE1, accepted), (Event.entry recE2, refused),
   (Event.entry recE3, accepted), (Event.quit, accepted)]

/-- The events of `traceQuit` with other transmit outcomes. -/
def traceQuitFailing : List (Event × Outcome) :=
  [(Event.entry recE1, refused), (Event.entry recE2, Outcome.transportError "timeout"),
   (Event.entry recE3, refused), (Event.quit, Outcome.marshalError "bad")]

/-- A record, a timer fire that flushes it, an idle timer fire. -/
def traceIdle : List Timed :=
  [{ now := 1, ev := Event.entry recE1, outcome := accepted },
   { now := 10, ev := Event.timer, outcome := accepted },
   { now := 20, ev := Event.timer, outcome := accepted }]

/-- A record arriving at clock reading 25, after the idle timer fire. -/
def lateArrival : Timed := { now := 25, ev := Event.entry recE2, outcome := accepted }

/-- The timer fire at clock reading 30. -/
def lateFire : Timed := { now := 30, ev := Event.timer, outcome := accepted }

/-- The record the call `Info` of scenario B puts on the channel at clock reading 5. -/
def recB : protoLogEntry := mkRecord 5 "rendered" INFO

/-- Scenario B at the dispatcher: the record, a timer fire, the quit signal. -/
def traceB : List (Event × Outcome) :=
  [(Event.entry recB, accepted), (Event.timer, accepted), (Event.quit, accepted)]

/-- The loop variables and the timer after `traceIdle`: nothing pending, the
timer re-armed at 20 to expire at 30, the last flush at 10. -/
def idleClocked : Clocked :=
  { st := { batch := [], batchSize := 0 }, deadline := 30, lastFlush := 10 }

/-- A configuration whose `BatchEntriesNumber` is zero. -/
def cfgZero : ClientConfig :=
  { PushURL := "http://loki/push", Labels := "job=demo", BatchWait := 1000000000,
    BatchEntriesNumber := 0, SendLevel := INFO, PrintLevel := ERROR }

instance instDecidableInv (cfg : ClientConfig) (st : State) : Decidable (Inv cfg st) := by
  unfold Inv
  infer_instance

/-! ## Basic facts on the observations -/

theorem batches_append (a b : List Effect) : batches (a ++ b) = batches a ++ batches b := by
  induction a with
  | nil => rfl
  | cons x xs ih => cases x <;> simp [batches, ih]

theorem printedLines_append (a b : List Effect) :
    printedLines (a ++ b) = printedLines a ++ printedLines b := by
  induction a with
  | nil => rfl
  | cons x xs ih => cases x <;> simp [printedLines, ih]

theorem resets_append (a b : List Effect) : resets (a ++ b) = resets a ++ resets b := by
  induction a with
  | nil => rfl
  | cons x xs ih => cases x <;> simp [resets, ih]

theorem batches_send (cfg : ClientConfig) (b : List Entry) (o : Outcome) :
    batches (send cfg b o) = [b] := by
  cases o <;> simp [send, batches]
  split <;> simp [batches]

theorem printedLines_send (cfg : ClientConfig) (b : List Entry) (o : Outcome) :
    printedLines (send cfg b o) = [] := by
  cases o <;> simp [send, printedLines]
  split <;> simp [printedLines]

theorem resets_send (cfg : ClientConfig) (b : List Entry) (o : Outcome) :
    resets (send cfg b o) = [] := by
  cases o <;> simp [send, resets]
  split <;> simp [resets]

theorem wrapSigned_64_of_range (x : Int) (h0 : 0 ≤ x) (h1 : x ≤ intMax) :
    wrapSigned 64 x = x := by
  unfold wrapSigned
  unfold intMax at h1
  norm_num at h1 ⊢
  omega

theorem inv_init (cfg : ClientConfig) : Inv cfg initState := by
  simp [Inv, initState]

theorem inv_empty (cfg : ClientConfig) : Inv cfg emptyState := by
  simp [Inv, emptyState]

/-! ## The loop invariant -/

theorem appendEntry_batch (st : State) (e : Entry) : (appendEntry st e).batch = st.batch ++ [e] := rfl

theorem appendEntry_batchSize (cfg : ClientConfig) (hB : cfg.BatchEntriesNumber ≤ intMax)
    (st : State) (e : Entry) (h : Inv cfg st) :
    (appendEntry st e).batchSize = st.batch.length + 1 := by
  obtain ⟨h1, h2⟩ := h
  have hlen : (0 : Int) ≤ st.batch.length := Int.ofNat_nonneg _
  have hle : (st.batch.length : Int) + 1 ≤ intMax := by
    rcases h2 with h2 | h2
    · simp [h2, intMax]
    · omega
  simp only [appendEntry, h1]
  exact wrapSigned_64_of_range _ (by omega) hle

theorem inv_iteration (cfg : ClientConfig) (hB : cfg.BatchEntriesNumber ≤ intMax)
    (st st1 : State) (ev : Event) (o : Outcome) (h : Inv cfg st)
    (hs : (iteration cfg st ev o).1 = some st1) : Inv cfg st1 := by
  cases ev with
  | quit => simp [iteration] at hs
  | entry e =>
    have hsz := appendEntry_batchSize cfg hB st e.entry h
    simp only [iteration] at hs
    split at hs
    · split at hs
      · simp at hs
        subst hs
        exact inv_empty cfg
      · rename_i hlt
        simp at hs
        subst hs
        refine ⟨?_, Or.inr ?_⟩
        · rw [hsz, appendEntry_batch]; simp
        · rw [hsz] at hlt
          rw [appendEntry_batch]
          simp only [List.length_append, List.length_singleton]
          push_cast
          omega
    · simp at hs
      subst hs
      exact h
  | timer =>
    simp only [iteration] at hs
    split at hs
    · simp at hs
      subst hs
      exact inv_empty cfg
    · simp at hs
      subst hs
      exact h

theorem batches_shown (c : Prop) [Decidable c] (l : String) :
    batches (if c then [Effect.print l] else []) = [] := by
  split <;> rfl

theorem batches_reset (d : Int) : batches [Effect.reset d] = [] := rfl

theorem batches_done : batches [Effect.done] = [] := rfl

theorem batches_nil : batches [] = [] := rfl

theorem inv_pos_iff (cfg : ClientConfig) (st : State) (h : Inv cfg st) :
    0 < st.batchSize ↔ st.batch ≠ [] := by
  obtain ⟨h1, _⟩ := h
  rw [h1]
  cases hb : st.batch with
  | nil => simp
  | cons a l => simp

theorem runFrom_conservation (cfg : ClientConfig) (hB : cfg.BatchEntriesNumber ≤ intMax)
    (evs : List (Event × Outcome)) :
    ∀ st : State, Inv cfg st →
      (batches (runFrom cfg st evs).2).flatten ++ held (runFrom cfg st evs).1
        = st.batch ++ sendable cfg (consumed evs) := by
  induction evs with
  | nil => intro st _; simp [runFrom, batches, held, consumed, sendable]
  | cons p rest ih =>
    intro st h
    obtain ⟨ev, o⟩ := p
    cases ev with
    | quit =>
      by_cases hpos : 0 < st.batchSize
      · simp only [runFrom, iteration, deferred, hpos, if_true, batches_append, batches_send,
          batches_nil, batches_done]
        simp [held, consumed, sendable]
      · have hb : st.batch = [] := by
          have := (inv_pos_iff cfg st h).not.mp hpos
          simpa using this
        simp only [runFrom, iteration, deferred, hpos, if_false, batches_append,
          batches_nil, batches_done]
        simp [held, consumed, sendable, hb]
    | entry e =>
      have hsz := appendEntry_batchSize cfg hB st e.entry h
      by_cases hsend : cfg.SendLevel ≤ e.level
      · by_cases hfull : cfg.BatchEntriesNumber ≤ (appendEntry st e.entry).batchSize
        · have := ih emptyState (inv_empty cfg)
          simp only [runFrom, iteration, hsend, hfull, if_true, batches_append, batches_send,
            batches_shown, batches_reset, List.flatten_append, List.append_assoc]
          simp only [List.flatten_nil, List.nil_append, List.flatten_cons, List.append_nil]
          rw [this]
          simp [emptyState, appendEntry_batch, consumed, sendable, hsend]
        · have hinv : Inv cfg (appendEntry st e.entry) :=
            inv_iteration cfg hB st _ (Event.entry e) o h (by simp [iteration, hsend, hfull])
          have := ih (appendEntry st e.entry) hinv
          simp only [runFrom, iteration, hsend, hfull, if_true, if_false, batches_append,
            batches_shown, List.nil_append]
          rw [this]
          simp [appendEntry_batch, consumed, sendable, hsend]
      · have := ih st h
        simp only [runFrom, iteration, hsend, if_false, batches_append, batches_shown,
          List.nil_append]
        rw [this]
        simp [consumed, sendable, hsend]
    | timer =>
      by_cases hpos : 0 < st.batchSize
      · have := ih emptyState (inv_empty cfg)
        simp only [runFrom, iteration, hpos, if_true, batches_append, batches_send,
          batches_reset, List.flatten_append, List.append_assoc]
        simp only [List.flatten_nil, List.nil_append, List.flatten_cons, List.append_nil]
        rw [this]
        simp [emptyState, consumed]
      · have := ih st h
        simp only [runFrom, iteration, hpos, if_false, batches_append, batches_reset,
          List.nil_append]
        rw [this]
        simp [consumed]

theorem runFrom_inv (cfg : ClientConfig) (hB : cfg.BatchEntriesNumber ≤ intMax)
    (evs : List (Event × Outcome)) :
    ∀ st st1 : State, Inv cfg st → (runFrom cfg st evs).1 = some st1 → Inv cfg st1 := by
  induction evs with
  | nil => intro st st1 h hs; simp [runFrom] at hs; subst hs; exact h
  | cons p rest ih =>
    intro st st1 h hs
    obtain ⟨ev, o⟩ := p
    simp only [runFrom] at hs
    split at hs
    · rename_i st2 effs heq
      have h2 : Inv cfg st2 := inv_iteration cfg hB st st2 ev o h (by rw [heq])
      exact ih st2 st1 h2 hs
    · simp at hs

theorem runFrom_batches_forall (cfg : ClientConfig) (P : List Entry → Prop)
    (hB : cfg.BatchEntriesNumber ≤ intMax)
    (hstep : ∀ st ev o, Inv cfg st → ∀ b ∈ batches (iteration cfg st ev o).2, P b)
    (hdef : ∀ st o, Inv cfg st → ∀ b ∈ batches (deferred cfg st o), P b)
    (evs : List (Event × Outcome)) :
    ∀ st : State, Inv cfg st → ∀ b ∈ batches (runFrom cfg st evs).2, P b := by
  induction evs with
  | nil => intro st _ b hb; simp [runFrom, batches] at hb
  | cons p rest ih =>
    intro st h b hb
    obtain ⟨ev, o⟩ := p
    simp only [runFrom] at hb
    split at hb
    · rename_i st2 effs heq
      have h2 : Inv cfg st2 := inv_iteration cfg hB st st2 ev o h (by rw [heq])
      simp only [batches_append, List.mem_append] at hb
      rcases hb with hb | hb
      · exact hstep st ev o h b (by rw [heq]; exact hb)
      · exact ih st2 h2 b hb
    · rename_i effs heq
      simp only [batches_append, List.mem_append] at hb
      rcases hb with hb | hb
      · exact hstep st ev o h b (by rw [heq]; exact hb)
      · exact hdef st o h b hb

theorem runFrom_append (cfg : ClientConfig) (a b : List (Event × Outcome)) :
    ∀ st : State, runFrom cfg st (a ++ b) =
      match runFrom cfg st a with
      | (some st1, effs) => ((runFrom cfg st1 b).1, effs ++ (runFrom cfg st1 b).2)
      | (none, effs) => (none, effs) := by
  induction a with
  | nil => intro st; simp [runFrom]
  | cons p rest ih =>
    intro st
    obtain ⟨ev, o⟩ := p
    simp only [List.cons_append, runFrom]
    cases hit : iteration cfg st ev o with
    | mk r effs =>
      cases r with
      | none => simp
      | some st2 =>
        have e := ih st2
        cases hr : runFrom cfg st2 rest with
        | mk r2 effs2 =>
          rw [hr] at e
          cases r2 with
          | none => simp only [] at e; simp [e, hr]
          | some st3 => simp only [] at e; simp [e, hr, List.append_assoc]

theorem iteration_none_iff (cfg : ClientConfig) (st : State) (ev : Event) (o : Outcome) :
    (iteration cfg st ev o).1 = none ↔ ev = Event.quit := by
  cases ev with
  | quit => simp [iteration]
  | entry e =>
    simp only [iteration]
    split <;> [split; skip] <;> simp
  | timer =>
    simp only [iteration]
    split <;> simp

theorem runFrom_none_iff (cfg : ClientConfig) (evs : List (Event × Outcome)) :
    ∀ st : State, (runFrom cfg st evs).1 = none ↔ ∃ p ∈ evs, p.1 = Event.quit := by
  induction evs with
  | nil => intro st; simp [runFrom]
  | cons p rest ih =>
    intro st
    obtain ⟨ev, o⟩ := p
    simp only [runFrom]
    cases hit : iteration cfg st ev o with
    | mk r effs =>
      have hn := iteration_none_iff cfg st ev o
      rw [hit] at hn
      cases r with
      | none =>
        have : ev = Event.quit := hn.mp rfl
        simp [this]
      | some st2 =>
        have hne : ev ≠ Event.quit := fun hq => by simpa using hn.mpr hq
        simp only [ih st2, List.mem_cons]
        constructor
        · rintro ⟨p, hp, hq⟩
          exact ⟨p, Or.inr hp, hq⟩
        · rintro ⟨p, hp | hp, hq⟩
          · subst hp; exact absurd hq hne
          · exact ⟨p, hp, hq⟩

theorem iteration_batches_nonempty (cfg : ClientConfig) (st : State) (ev : Event) (o : Outcome)
    (h : Inv cfg st) : ∀ b ∈ batches (iteration cfg st ev o).2, b ≠ [] := by
  intro b hb
  cases ev with
  | quit => simp [iteration, batches] at hb
  | entry e =>
    simp only [iteration] at hb
    split at hb
    · split at hb
      · simp only [batches_append, batches_send, batches_shown, batches_reset, List.nil_append,
          List.append_nil, List.mem_singleton] at hb
        subst hb
        simp [appendEntry_batch]
      · simp [batches_shown] at hb
    · simp [batches_shown] at hb
  | timer =>
    simp only [iteration] at hb
    split at hb
    · rename_i hpos
      simp only [batches_append, batches_send, batches_reset, List.append_nil,
        List.mem_singleton] at hb
      subst hb
      exact (inv_pos_iff cfg st h).mp hpos
    · simp [batches_reset] at hb

theorem deferred_batches_nonempty (cfg : ClientConfig) (st : State) (o : Outcome)
    (h : Inv cfg st) : ∀ b ∈ batches (deferred cfg st o), b ≠ [] := by
  intro b hb
  simp only [deferred] at hb
  split at hb
  · rename_i hpos
    simp only [batches_append, batches_send, batches_done, List.append_nil,
      List.mem_singleton] at hb
    subst hb
    exact (inv_pos_iff cfg st h).mp hpos
  · simp [batches_append, batches_done, batches_nil] at hb

theorem printedLines_shown (c : Prop) [Decidable c] (l : String) :
    printedLines (if c then [Effect.print l] else []) = if c then [l] else [] := by
  split <;> rfl

theorem printedLines_reset (d : Int) : printedLines [Effect.reset d] = [] := rfl

theorem printedLines_done : printedLines [Effect.done] = [] := rfl

theorem printedLines_nil : printedLines [] = [] := rfl

theorem printedLines_iteration_entry (cfg : ClientConfig) (st : State) (r : protoLogEntry)
    (o : Outcome) :
    printedLines (iteration cfg st (Event.entry r) o).2
      = if cfg.PrintLevel ≤ r.level then [r.entry.Line] else [] := by
  simp only [iteration]
  split <;> [split; skip] <;>
    simp only [printedLines_append, printedLines_send, printedLines_shown, printedLines_reset,
      List.append_nil]

theorem printedLines_deferred (cfg : ClientConfig) (st : State) (o : Outcome) :
    printedLines (deferred cfg st o) = [] := by
  simp only [deferred]
  split <;> simp [printedLines_append, printedLines_send, printedLines_done, printedLines_nil]

theorem runFrom_printedLines (cfg : ClientConfig) (evs : List (Event × Outcome)) :
    ∀ st : State, printedLines (runFrom cfg st evs).2 = printable cfg (consumed evs) := by
  induction evs with
  | nil => intro st; simp [runFrom, printedLines, printable, consumed]
  | cons p rest ih =>
    intro st
    obtain ⟨ev, o⟩ := p
    cases ev with
    | quit =>
      simp [runFrom, iteration, printedLines_deferred, printable, consumed]
    | entry e =>
      have hp := printedLines_iteration_entry cfg st e o
      simp only [runFrom]
      cases hit : iteration cfg st (Event.entry e) o with
      | mk r effs =>
        rw [hit] at hp
        have hn := iteration_none_iff cfg st (Event.entry e) o
        rw [hit] at hn
        cases r with
        | none => simp at hn
        | some st2 =>
          simp only [printedLines_append, ih st2]
          simp only at hp
          rw [hp]
          by_cases hc : cfg.PrintLevel ≤ e.level <;> simp [printable, consumed, hc]
    | timer =>
      by_cases hpos : 0 < st.batchSize <;>
        simp only [runFrom, iteration, hpos, if_true, if_false, printedLines_append,
          printedLines_send, printedLines_reset, ih, consumed, List.nil_append]

theorem sendable_cons_mem (cfg : ClientConfig) (r : protoLogEntry) (rs : List protoLogEntry)
    (e : Entry) (h : e ∈ sendable cfg rs) : e ∈ sendable cfg (r :: rs) := by
  simp only [sendable, List.filter_cons] at h ⊢
  split <;> simp [h]

theorem sendable_cons_self (cfg : ClientConfig) (r : protoLogEntry) (rs : List protoLogEntry)
    (h : cfg.SendLevel ≤ r.level) : r.entry ∈ sendable cfg (r :: rs) := by
  simp [sendable, h]

theorem runFrom_batches_sub (cfg : ClientConfig) (evs : List (Event × Outcome)) :
    ∀ st : State, ∀ b ∈ batches (runFrom cfg st evs).2, ∀ e ∈ b,
      e ∈ st.batch ∨ e ∈ sendable cfg (consumed evs) := by
  induction evs with
  | nil => intro st b hb; simp [runFrom, batches] at hb
  | cons p rest ih =>
    intro st b hb e he
    obtain ⟨ev, o⟩ := p
    cases ev with
    | quit =>
      by_cases hpos : 0 < st.batchSize
      · simp only [runFrom, iteration, deferred, hpos, if_true, batches_append, batches_send,
          batches_done, batches_nil, List.nil_append, List.append_nil, List.mem_singleton] at hb
        subst hb
        exact Or.inl he
      · simp [runFrom, iteration, deferred, hpos, batches_append, batches_done, batches_nil] at hb
    | entry r =>
      by_cases hsend : cfg.SendLevel ≤ r.level
      · by_cases hfull : cfg.BatchEntriesNumber ≤ (appendEntry st r.entry).batchSize
        · simp only [runFrom, iteration, hsend, hfull, if_true, batches_append, batches_send,
            batches_shown, batches_reset, List.nil_append, List.append_nil,
            List.singleton_append, List.mem_cons] at hb
          rcases hb with hb | hb
          · subst hb
            rw [appendEntry_batch, List.mem_append, List.mem_singleton] at he
            rcases he with he | he
            · exact Or.inl he
            · right; subst he; exact sendable_cons_self cfg r _ hsend
          · rcases ih emptyState b hb e he with h | h
            · simp [emptyState] at h
            · exact Or.inr (sendable_cons_mem cfg r _ e h)
        · simp only [runFrom, iteration, hsend, hfull, if_true, if_false, batches_append,
            batches_shown, List.nil_append] at hb
          rcases ih (appendEntry st r.entry) b hb e he with h | h
          · rw [appendEntry_batch, List.mem_append, List.mem_singleton] at h
            rcases h with h | h
            · exact Or.inl h
            · right; subst h; exact sendable_cons_self cfg r _ hsend
          · exact Or.inr (sendable_cons_mem cfg r _ e h)
      · simp only [runFrom, iteration, hsend, if_false, batches_append, batches_shown,
          List.nil_append] at hb
        rcases ih st b hb e he with h | h
        · exact Or.inl h
        · exact Or.inr (sendable_cons_mem cfg r _ e h)
    | timer =>
      by_cases hpos : 0 < st.batchSize
      · simp only [runFrom, iteration, hpos, if_true, batches_append, batches_send,
          batches_reset, List.append_nil, List.singleton_append, List.mem_cons] at hb
        rcases hb with hb | hb
        · subst hb; exact Or.inl he
        · rcases ih emptyState b hb e he with h | h
          · simp [emptyState] at h
          · exact Or.inr (by simpa [consumed] using h)
      · simp only [runFrom, iteration, hpos, if_false, batches_append, batches_reset,
          List.nil_append] at hb
        rcases ih st b hb e he with h | h
        · exact Or.inl h
        · exact Or.inr (by simpa [consumed] using h)

theorem mkTimestamp_split (now : Int) (h0 : 0 ≤ now) :
    Int.tmod now second = now % second ∧ Int.tdiv now second = now / second ∧
    wrapSigned 32 (Int.tmod now second) = now % second := by
  have hs : (0 : Int) < second := by decide
  have hm : Int.tmod now second = now % second := Int.tmod_eq_emod h0 (le_of_lt hs)
  have hd : Int.tdiv now second = now / second := Int.tdiv_eq_ediv h0 (le_of_lt hs)
  refine ⟨hm, hd, ?_⟩
  have hlo : 0 ≤ now % second := Int.emod_nonneg _ (ne_of_gt hs)
  have hhi : now % second < second := Int.emod_lt_of_pos _ hs
  rw [hm]
  unfold wrapSigned
  unfold second at hhi hlo ⊢
  norm_num
  omega

theorem log_enqueued (cfg : ClientConfig) (marshal : Data → Except String String) (now : Int)
    (level : LogLevel) (levelText : String) (data : Option Data) (r : protoLogEntry)
    (hr : r ∈ enqueued (log cfg marshal now level levelText data).effects) :
    (cfg.SendLevel ≤ level ∨ cfg.PrintLevel ≤ level) ∧ r.level = level ∧
    r.entry.Timestamp = mkTimestamp now ∧
    ∃ pairs, data = some pairs ∧
      marshal (setKey pairs "level" (Value.str levelText)) = Except.ok r.entry.Line := by
  unfold log at hr
  split at hr
  · rename_i hgate
    refine ⟨hgate, ?_⟩
    cases data with
    | none => simp [LogResult.effects, enqueued] at hr
    | some pairs =>
      simp only at hr
      split at hr
      · simp [LogResult.effects, enqueued] at hr
      · rename_i buf hbuf
        simp only [LogResult.effects, enqueued, List.mem_singleton] at hr
        subst hr
        exact ⟨rfl, rfl, pairs, rfl, hbuf⟩
  · simp [LogResult.effects, enqueued] at hr

theorem log_nil_panics (cfg : ClientConfig) (marshal : Data → Except String String) (now : Int)
    (level : LogLevel) (levelText : String)
    (hgate : cfg.SendLevel ≤ level ∨ cfg.PrintLevel ≤ level) :
    log cfg marshal now level levelText none
      = LogResult.panicked "assignment to entry in nil map" := by
  simp [log, hgate]

theorem printedLines_log (cfg : ClientConfig) (marshal : Data → Except String String) (now : Int)
    (level : LogLevel) (levelText : String) (data : Option Data) :
    printedLines (log cfg marshal now level levelText data).effects = [] := by
  unfold log
  split
  · cases data with
    | none => rfl
    | some pairs =>
      simp only
      split <;> rfl
  · rfl

theorem iteration_outcome_indep (cfg : ClientConfig) (st : State) (ev : Event) (o1 o2 : Outcome) :
    (iteration cfg st ev o1).1 = (iteration cfg st ev o2).1 ∧
    batches (iteration cfg st ev o1).2 = batches (iteration cfg st ev o2).2 := by
  cases ev with
  | quit => simp [iteration]
  | entry r =>
    by_cases hsend : cfg.SendLevel ≤ r.level
    · by_cases hfull : cfg.BatchEntriesNumber ≤ (appendEntry st r.entry).batchSize
      · simp only [iteration, hsend, hfull, if_true, batches_append, batches_send, and_self]
      · simp only [iteration, hsend, hfull, if_true, if_false, and_self]
    · simp only [iteration, hsend, if_false, and_self]
  | timer =>
    by_cases hpos : 0 < st.batchSize
    · simp only [iteration, hpos, if_true, batches_append, batches_send, and_self]
    · simp only [iteration, hpos, if_false, and_self]

theorem deferred_outcome_indep (cfg : ClientConfig) (st : State) (o1 o2 : Outcome) :
    batches (deferred cfg st o1) = batches (deferred cfg st o2) := by
  by_cases hpos : 0 < st.batchSize
  · simp only [deferred, hpos, if_true, batches_append, batches_send]
  · simp only [deferred, hpos, if_false]

theorem runFrom_outcome_indep (cfg : ClientConfig) (evs1 : List (Event × Outcome)) :
    ∀ (evs2 : List (Event × Outcome)) (st : State),
      evs1.map Prod.fst = evs2.map Prod.fst →
      (runFrom cfg st evs1).1 = (runFrom cfg st evs2).1 ∧
      batches (runFrom cfg st evs1).2 = batches (runFrom cfg st evs2).2 := by
  induction evs1 with
  | nil =>
    intro evs2 st h
    cases evs2 with
    | nil => simp
    | cons q rest2 => simp at h
  | cons p rest ih =>
    intro evs2 st h
    cases evs2 with
    | nil => simp at h
    | cons q rest2 =>
      obtain ⟨ev, o1⟩ := p
      obtain ⟨ev2, o2⟩ := q
      simp only [List.map_cons, List.cons.injEq] at h
      obtain ⟨hev, hrest⟩ := h
      subst hev
      have hi := iteration_outcome_indep cfg st ev o1 o2
      simp only [runFrom]
      cases h1 : iteration cfg st ev o1 with
      | mk r1 effs1 =>
        cases h2 : iteration cfg st ev o2 with
        | mk r2 effs2 =>
          rw [h1, h2] at hi
          simp only at hi
          obtain ⟨hst, hb⟩ := hi
          subst hst
          cases r1 with
          | none =>
            simp only [batches_append, hb, deferred_outcome_indep cfg st o1 o2, and_self]
          | some st1 =>
            have := ih rest2 st1 hrest
            simp only [batches_append, hb, this.1, this.2, and_self]

theorem iteration_flush_state (cfg : ClientConfig) (st : State) (ev : Event) (o : Outcome)
    (h : flushed (iteration cfg st ev o).2 = true) :
    (iteration cfg st ev o).1 = some { batch := [], batchSize := 0 } ∧
    ∃ b, batches (iteration cfg st ev o).2 = [b] := by
  cases ev with
  | quit => simp [iteration, flushed, batches] at h
  | entry r =>
    by_cases hsend : cfg.SendLevel ≤ r.level
    · by_cases hfull : cfg.BatchEntriesNumber ≤ (appendEntry st r.entry).batchSize
      · simp only [iteration, hsend, hfull, if_true, batches_append, batches_send, batches_shown,
          batches_reset, List.nil_append, List.append_nil, emptyState]
        exact ⟨trivial, _, rfl⟩
      · simp [iteration, hsend, hfull, flushed, batches_shown] at h
    · simp [iteration, hsend, flushed, batches_shown] at h
  | timer =>
    by_cases hpos : 0 < st.batchSize
    · simp only [iteration, hpos, if_true, batches_append, batches_send,
        batches_reset, List.append_nil, emptyState]
      exact ⟨trivial, _, rfl⟩
    · simp [iteration, hpos, flushed, batches_reset] at h

theorem posts_send_le (cfg : ClientConfig) (b : List Entry) (o : Outcome) :
    (posts (send cfg b o)).length ≤ 1 := by
  cases o <;> simp [send, posts]
  split <;> simp [posts]

theorem resets_shown (c : Prop) [Decidable c] (l : String) :
    resets (if c then [Effect.print l] else []) = [] := by
  split <;> rfl

theorem resets_reset (d : Int) : resets [Effect.reset d] = [d] := rfl

theorem iteration_entry_flush (cfg : ClientConfig) (hB : cfg.BatchEntriesNumber ≤ intMax)
    (st : State) (r : protoLogEntry) (o : Outcome) (h : Inv cfg st)
    (hdue : codeFlushDue cfg st (Event.entry r) = true) :
    batches (iteration cfg st (Event.entry r) o).2 = [st.batch ++ [r.entry]] ∧
    resets (iteration cfg st (Event.entry r) o).2 = [cfg.BatchWait] := by
  have hsz := appendEntry_batchSize cfg hB st r.entry h
  simp only [codeFlushDue, Bool.and_eq_true, decide_eq_true_eq] at hdue
  obtain ⟨hsend, hfull⟩ := hdue
  rw [← hsz] at hfull
  simp only [iteration, hsend, hfull, if_true, batches_append, batches_send, batches_shown,
    batches_reset, resets_append, resets_send, resets_shown, resets_reset, List.nil_append,
    List.append_nil, appendEntry_batch, and_self]

theorem iteration_entry_keep (cfg : ClientConfig) (hB : cfg.BatchEntriesNumber ≤ intMax)
    (st : State) (r : protoLogEntry) (o : Outcome) (h : Inv cfg st)
    (hdue : codeFlushDue cfg st (Event.entry r) = false) :
    batches (iteration cfg st (Event.entry r) o).2 = [] ∧
    resets (iteration cfg st (Event.entry r) o).2 = [] := by
  have hsz := appendEntry_batchSize cfg hB st r.entry h
  simp only [codeFlushDue, Bool.and_eq_false_iff, decide_eq_false_iff_not] at hdue
  by_cases hsend : cfg.SendLevel ≤ r.level
  · have hfull : ¬ cfg.BatchEntriesNumber ≤ (appendEntry st r.entry).batchSize := by
      rw [hsz]
      rcases hdue with hd | hd
      · exact absurd hsend hd
      · exact hd
    simp only [iteration, hsend, hfull, if_true, if_false, batches_shown, resets_shown, and_self]
  · simp only [iteration, hsend, if_false, batches_shown, resets_shown, and_self]

theorem iteration_timer (cfg : ClientConfig) (st : State) (o : Outcome) (h : Inv cfg st) :
    batches (iteration cfg st Event.timer o).2 = (if st.batch ≠ [] then [st.batch] else []) ∧
    resets (iteration cfg st Event.timer o).2 = [cfg.BatchWait] := by
  by_cases hpos : 0 < st.batchSize
  · have hne : st.batch ≠ [] := (inv_pos_iff cfg st h).mp hpos
    simp only [iteration, hpos, if_true, batches_append, batches_send, batches_reset,
      resets_append, resets_send, resets_reset, List.nil_append, List.append_nil, hne,
      ne_eq, not_false_eq_true, and_self]
  · have hnil : st.batch = [] := by
      by_contra hne
      exact hpos ((inv_pos_iff cfg st h).mpr hne)
    simp only [iteration, hpos, if_false, batches_reset, resets_reset, hnil, ne_eq,
      not_true_eq_false, and_self]

theorem iteration_obs (cfg : ClientConfig) (hB : cfg.BatchEntriesNumber ≤ intMax)
    (st : State) (ev : Event) (o : Outcome) (h : Inv cfg st) :
    flushed (iteration cfg st ev o).2 = codeFlushDue cfg st ev ∧
    rearmed (iteration cfg st ev o).2 = (decide (ev = Event.timer) || codeFlushDue cfg st ev) := by
  cases ev with
  | quit => simp [iteration, flushed, rearmed, codeFlushDue, batches, resets]
  | entry r =>
    cases hdue : codeFlushDue cfg st (Event.entry r) with
    | true =>
      obtain ⟨hb, hr⟩ := iteration_entry_flush cfg hB st r o h hdue
      simp [flushed, rearmed, hb, hr]
    | false =>
      obtain ⟨hb, hr⟩ := iteration_entry_keep cfg hB st r o h hdue
      simp [flushed, rearmed, hb, hr]
  | timer =>
    obtain ⟨hb, hr⟩ := iteration_timer cfg st o h
    by_cases hne : st.batch ≠ []
    · simp [flushed, rearmed, hb, hr, codeFlushDue, hne]
    · simp [flushed, rearmed, hb, hr, codeFlushDue, hne]

theorem done_not_mem_send (cfg : ClientConfig) (b : List Entry) (o : Outcome) :
    Effect.done ∉ send cfg b o := by
  cases o <;> simp [send]
  split <;> simp

theorem done_not_mem_iteration (cfg : ClientConfig) (st : State) (ev : Event) (o : Outcome) :
    Effect.done ∉ (iteration cfg st ev o).2 := by
  cases ev with
  | quit => simp [iteration]
  | entry r =>
    have hs : Effect.done ∉ (if cfg.PrintLevel ≤ r.level then [Effect.print r.entry.Line] else []) := by
      split <;> simp
    by_cases hsend : cfg.SendLevel ≤ r.level
    · by_cases hfull : cfg.BatchEntriesNumber ≤ (appendEntry st r.entry).batchSize
      · simp only [iteration, hsend, hfull, if_true, List.mem_append, not_or]
        exact ⟨⟨hs, done_not_mem_send cfg _ o⟩, by simp⟩
      · simp only [iteration, hsend, hfull, if_true, if_false]
        exact hs
    · simp only [iteration, hsend, if_false]
      exact hs
  | timer =>
    by_cases hpos : 0 < st.batchSize
    · simp only [iteration, hpos, if_true, List.mem_append, not_or]
      exact ⟨done_not_mem_send cfg _ o, by simp⟩
    · simp [iteration, hpos]

theorem runFrom_done_not_mem (cfg : ClientConfig) (evs : List (Event × Outcome)) :
    ∀ st st1 : State, (runFrom cfg st evs).1 = some st1 → Effect.done ∉ (runFrom cfg st evs).2 := by
  induction evs with
  | nil => intro st st1 _; simp [runFrom]
  | cons p rest ih =>
    intro st st1 hs
    obtain ⟨ev, o⟩ := p
    have hd := done_not_mem_iteration cfg st ev o
    simp only [runFrom] at hs ⊢
    cases hit : iteration cfg st ev o with
    | mk r effs =>
      rw [hit] at hs hd
      cases r with
      | none => simp at hs
      | some st2 =>
        simp only at hs hd
        simp only [List.mem_append, not_or]
        exact ⟨hd, ih st2 st1 hs⟩

/-! ## The claims -/

/-- C1: in every run of the dispatcher that has received the shutdown signal,
the concatenation of the batches handed to `send`, the final flush of the
deferred function included, is the list of the consumed records with severity
at least `SendLevel`, in arrival order; in particular as many records are
transmitted as were accepted for sending. -/
theorem C1_transmitted_eq_sendable (cfg : ClientConfig) (evs : List (Event × Outcome))
    (hB : cfg.BatchEntriesNumber ≤ intMax) (hquit : (run cfg evs).1 = none) :
    (batches (run cfg evs).2).flatten = sendable cfg (consumed evs) ∧
    ((batches (run cfg evs).2).map List.length).sum
      = ((consumed evs).filter (fun r => cfg.SendLevel ≤ r.level)).length := by
  have h := runFrom_conservation cfg hB evs initState (inv_init cfg)
  have h1 : (batches (run cfg evs).2).flatten = sendable cfg (consumed evs) := by
    unfold run at hquit ⊢
    rw [hquit] at h
    simpa [held, initState] using h
  refine ⟨h1, ?_⟩
  rw [← List.length_flatten, h1]
  simp [sendable]

theorem C1_witness :
    cfgA.BatchEntriesNumber ≤ intMax ∧ (run cfgA traceQuit).1 = none ∧
    (batches (run cfgA traceQuit).2).flatten = sendable cfgA (consumed traceQuit) ∧
    ((batches (run cfgA traceQuit).2).map List.length).sum
      = ((consumed traceQuit).filter (fun r => cfgA.SendLevel ≤ r.level)).length :=
  ⟨by decide, by decide, C1_transmitted_eq_sendable cfgA traceQuit (by decide) (by decide)⟩

/-- C2: no batch handed to `send` is empty, for every configuration (also with
`BatchEntriesNumber` zero or negative) and every sequence of arrivals, timer
fires and quit signals; and whenever the loop waits for its next event the
counter `batchSize` equals the length of the accumulated batch. -/
theorem C2_no_empty_batch (cfg : ClientConfig) (evs : List (Event × Outcome))
    (hB : cfg.BatchEntriesNumber ≤ intMax) :
    (∀ b ∈ batches (run cfg evs).2, b ≠ []) ∧
    (∀ st, (run cfg evs).1 = some st → st.batchSize = st.batch.length) := by
  constructor
  · exact runFrom_batches_forall cfg (fun b => b ≠ []) hB
      (fun st ev o h => iteration_batches_nonempty cfg st ev o h)
      (fun st o h => deferred_batches_nonempty cfg st o h) evs initState (inv_init cfg)
  · intro st hst
    exact (runFrom_inv cfg hB evs initState st (inv_init cfg) hst).1

theorem C2_witness :
    cfgZero.BatchEntriesNumber ≤ intMax ∧
    (∀ b ∈ batches (run cfgZero traceQuit).2, b ≠ []) ∧
    (∀ st, (run cfgZero traceQuit).1 = some st → st.batchSize = st.batch.length) :=
  ⟨by decide, C2_no_empty_batch cfgZero traceQuit (by decide)⟩

/-- C4: when the quit signal is received in a state reached by the loop, the
pending batch holds exactly the sendable records consumed and not yet flushed,
in arrival order; `run` returns, and the deferred function hands that batch to
`send` once and then releases the wait group if the batch is not empty, and
only releases the wait group if it is empty. The wait group is not released
before. -/
theorem C4_shutdown_final_flush (cfg : ClientConfig) (evs : List (Event × Outcome))
    (st : State) (o : Outcome)
    (hB : cfg.BatchEntriesNumber ≤ intMax) (hrun : (run cfg evs).1 = some st) :
    (batches (run cfg evs).2).flatten ++ st.batch = sendable cfg (consumed evs) ∧
    run cfg (evs ++ [(Event.quit, o)]) = (none, (run cfg evs).2 ++ deferred cfg st o) ∧
    (st.batch ≠ [] → deferred cfg st o = send cfg st.batch o ++ [Effect.done] ∧
        batches (deferred cfg st o) = [st.batch]) ∧
    (st.batch = [] → deferred cfg st o = [Effect.done]) ∧
    Effect.done ∉ (run cfg evs).2 := by
  have hinv : Inv cfg st := runFrom_inv cfg hB evs initState st (inv_init cfg) hrun
  have hcons := runFrom_conservation cfg hB evs initState (inv_init cfg)
  unfold run at hrun ⊢
  refine ⟨?_, ?_, ?_, ?_, runFrom_done_not_mem cfg evs initState st hrun⟩
  · rw [hrun] at hcons
    simpa [held, initState] using hcons
  · rw [runFrom_append]
    cases hr : runFrom cfg initState evs with
    | mk r effs =>
      rw [hr] at hrun
      simp only at hrun
      subst hrun
      simp [runFrom, iteration]
  · intro hne
    have hpos : 0 < st.batchSize := (inv_pos_iff cfg st hinv).mpr hne
    simp [deferred, hpos, batches_append, batches_send, batches_done]
  · intro hnil
    have hpos : ¬ 0 < st.batchSize := fun hp => (inv_pos_iff cfg st hinv).mp hp hnil
    simp [deferred, hpos]

theorem C4_witness :
    cfgA.BatchEntriesNumber ≤ intMax ∧
    (run cfgA (traceQuit.take 3)).1 = some { batch := [recE3.entry], batchSize := 1 } ∧
    ((batches (run cfgA (traceQuit.take 3)).2).flatten ++ [recE3.entry]
        = sendable cfgA (consumed (traceQuit.take 3)) ∧
      run cfgA (traceQuit.take 3 ++ [(Event.quit, refused)])
        = (none, (run cfgA (traceQuit.take 3)).2
            ++ deferred cfgA { batch := [recE3.entry], batchSize := 1 } refused) ∧
      ([recE3.entry] ≠ [] →
        deferred cfgA { batch := [recE3.entry], batchSize := 1 } refused
            = send cfgA [recE3.entry] refused ++ [Effect.done] ∧
          batches (deferred cfgA { batch := [recE3.entry], batchSize := 1 } refused)
            = [[recE3.entry]]) ∧
      ([recE3.entry] = [] →
        deferred cfgA { batch := [recE3.entry], batchSize := 1 } refused = [Effect.done]) ∧
      Effect.done ∉ (run cfgA (traceQuit.take 3)).2) :=
  ⟨by decide, by decide,
    C4_shutdown_final_flush cfgA (traceQuit.take 3) { batch := [recE3.entry], batchSize := 1 }
      refused (by decide) (by decide)⟩

/-- C9: with `1 ≤ BatchEntriesNumber`, in every run: while the loop waits for its
next event the accumulated batch is shorter than `BatchEntriesNumber`; when the
forced-flush condition is evaluated (after the append) the batch has at most
`BatchEntriesNumber` entries and the counter equals its length; every batch
handed to `send` has at most `BatchEntriesNumber` entries; and a flush triggered
by the count hands over exactly `BatchEntriesNumber` entries and leaves the
batch empty with counter zero. -/
theorem C9_batch_bound (cfg : ClientConfig) (evs : List (Event × Outcome))
    (h1 : 1 ≤ cfg.BatchEntriesNumber) (hB : cfg.BatchEntriesNumber ≤ intMax) :
    (∀ st, (run cfg evs).1 = some st → (st.batch.length : Int) < cfg.BatchEntriesNumber) ∧
    (∀ st e, (run cfg evs).1 = some st →
      ((appendEntry st e).batch.length : Int) ≤ cfg.BatchEntriesNumber ∧
      (appendEntry st e).batchSize = (appendEntry st e).batch.length) ∧
    (∀ b ∈ batches (run cfg evs).2, (b.length : Int) ≤ cfg.BatchEntriesNumber) ∧
    (∀ st r o, (run cfg evs).1 = some st → cfg.SendLevel ≤ r.level →
      cfg.BatchEntriesNumber ≤ (appendEntry st r.entry).batchSize →
        (iteration cfg st (Event.entry r) o).1 = some { batch := [], batchSize := 0 } ∧
        batches (iteration cfg st (Event.entry r) o).2 = [st.batch ++ [r.entry]] ∧
        ((st.batch ++ [r.entry]).length : Int) = cfg.BatchEntriesNumber) := by
  have hlt : ∀ st, Inv cfg st → (st.batch.length : Int) < cfg.BatchEntriesNumber := by
    intro st h
    rcases h.2 with h2 | h2
    · rw [h2]; simp; omega
    · exact h2
  have hreach : ∀ st, (run cfg evs).1 = some st → Inv cfg st :=
    fun st hst => runFrom_inv cfg hB evs initState st (inv_init cfg) hst
  refine ⟨fun st hst => hlt st (hreach st hst), ?_, ?_, ?_⟩
  · intro st e hst
    have hinv := hreach st hst
    have := hlt st hinv
    rw [appendEntry_batchSize cfg hB st e hinv, appendEntry_batch]
    simp only [List.length_append, List.length_singleton]
    push_cast
    omega
  · refine runFrom_batches_forall cfg (fun b => (b.length : Int) ≤ cfg.BatchEntriesNumber) hB
      ?_ ?_ evs initState (inv_init cfg)
    · intro st ev o hinv b hb
      have := hlt st hinv
      cases ev with
      | quit => simp [iteration, batches] at hb
      | entry e =>
        simp only [iteration] at hb
        split at hb
        · split at hb
          · simp only [batches_append, batches_send, batches_shown, batches_reset,
              List.nil_append, List.append_nil, List.mem_singleton] at hb
            subst hb
            rw [appendEntry_batch]
            simp only [List.length_append, List.length_singleton]
            push_cast
            omega
          · simp [batches_shown] at hb
        · simp [batches_shown] at hb
      | timer =>
        simp only [iteration] at hb
        split at hb
        · simp only [batches_append, batches_send, batches_reset, List.append_nil,
            List.mem_singleton] at hb
          subst hb
          omega
        · simp [batches_reset] at hb
    · intro st o hinv b hb
      have := hlt st hinv
      simp only [deferred] at hb
      split at hb
      · simp only [batches_append, batches_send, batches_done, List.append_nil,
          List.mem_singleton] at hb
        subst hb
        omega
      · simp [batches_append, batches_done, batches_nil] at hb
  · intro st r o hst hsend hfull
    have hinv := hreach st hst
    have := hlt st hinv
    have hsz := appendEntry_batchSize cfg hB st r.entry hinv
    refine ⟨?_, ?_, ?_⟩
    · simp [iteration, hsend, hfull, emptyState]
    · simp only [iteration, hsend, hfull, if_true, batches_append, batches_send, batches_shown,
        batches_reset, List.nil_append, List.append_nil, appendEntry_batch]
    · rw [hsz] at hfull
      simp only [List.length_append, List.length_singleton]
      push_cast
      omega

theorem C9_witness :
    1 ≤ cfgA.BatchEntriesNumber ∧ cfgA.BatchEntriesNumber ≤ intMax ∧
    ((∀ st, (run cfgA traceA).1 = some st → (st.batch.length : Int) < cfgA.BatchEntriesNumber) ∧
    (∀ st e, (run cfgA traceA).1 = some st →
      ((appendEntry st e).batch.length : Int) ≤ cfgA.BatchEntriesNumber ∧
      (appendEntry st e).batchSize = (appendEntry st e).batch.length) ∧
    (∀ b ∈ batches (run cfgA traceA).2, (b.length : Int) ≤ cfgA.BatchEntriesNumber) ∧
    (∀ st r o, (run cfgA traceA).1 = some st → cfgA.SendLevel ≤ r.level →
      cfgA.BatchEntriesNumber ≤ (appendEntry st r.entry).batchSize →
        (iteration cfgA st (Event.entry r) o).1 = some { batch := [], batchSize := 0 } ∧
        batches (iteration cfgA st (Event.entry r) o).2 = [st.batch ++ [r.entry]] ∧
        ((st.batch ++ [r.entry]).length : Int) = cfgA.BatchEntriesNumber)) :=
  ⟨by decide, by decide, C9_batch_bound cfgA traceA (by decide) (by decide)⟩

/-- C10: for a clock reading `now ≥ 0`, the timestamp of the record that `log`
puts on the channel satisfies `Seconds * 1000000000 + Nanos = now` with
`0 ≤ Nanos < 1000000000`; the conversion to `int32` returns the remainder
unchanged, and `now` is recovered from the timestamp. -/
theorem C10_timestamp_split (cfg : ClientConfig) (marshal : Data → Except String String)
    (now : Int) (level : LogLevel) (levelText : String) (data : Option Data) (r : protoLogEntry)
    (h0 : 0 ≤ now) (hr : r ∈ enqueued (log cfg marshal now level levelText data).effects) :
    r.entry.Timestamp.Seconds * 1000000000 + r.entry.Timestamp.Nanos = now ∧
    0 ≤ r.entry.Timestamp.Nanos ∧ r.entry.Timestamp.Nanos < 1000000000 ∧
    r.entry.Timestamp.Nanos = Int.tmod now second ∧
    (∀ now2 : Int, 0 ≤ now2 → mkTimestamp now2 = r.entry.Timestamp → now2 = now) := by
  obtain ⟨_, _, hts, _⟩ := log_enqueued cfg marshal now level levelText data r hr
  obtain ⟨hm, hd, hw⟩ := mkTimestamp_split now h0
  have hs : (0 : Int) < second := by decide
  have hsec : r.entry.Timestamp.Seconds = now / second := by rw [hts]; exact hd
  have hnan : r.entry.Timestamp.Nanos = now % second := by rw [hts]; exact hw
  have hlo : 0 ≤ now % second := Int.emod_nonneg _ (ne_of_gt hs)
  have hhi : now % second < second := Int.emod_lt_of_pos _ hs
  have hsum : now / second * 1000000000 + now % second = now := by
    have := Int.ediv_add_emod now second
    have h9 : second = 1000000000 := rfl
    rw [h9] at this ⊢
    linarith
  refine ⟨by rw [hsec, hnan]; exact hsum, by rw [hnan]; exact hlo, by rw [hnan]; exact hhi,
    by rw [hnan, hm], ?_⟩
  intro now2 h2 heq
  obtain ⟨_, hd2, hw2⟩ := mkTimestamp_split now2 h2
  rw [hts] at heq
  have e1 : now2 / second = now / second := by
    have := congrArg Timestamp.Seconds heq
    simpa [mkTimestamp, hd, hd2] using this
  have e2 : now2 % second = now % second := by
    have := congrArg Timestamp.Nanos heq
    simpa [mkTimestamp, hw, hw2] using this
  have a1 := Int.ediv_add_emod now second
  have a2 := Int.ediv_add_emod now2 second
  rw [← a1, ← a2, e1, e2]

theorem C10_witness :
    (0 : Int) ≤ 1700000000123456789 ∧
    mkRecord 1700000000123456789 "rendered" INFO
      ∈ enqueued (log cfgA renderOk 1700000000123456789 INFO "info" (some [])).effects ∧
    ((mkRecord 1700000000123456789 "rendered" INFO).entry.Timestamp.Seconds * 1000000000
        + (mkRecord 1700000000123456789 "rendered" INFO).entry.Timestamp.Nanos
        = 1700000000123456789 ∧
      0 ≤ (mkRecord 1700000000123456789 "rendered" INFO).entry.Timestamp.Nanos ∧
      (mkRecord 1700000000123456789 "rendered" INFO).entry.Timestamp.Nanos < 1000000000 ∧
      (mkRecord 1700000000123456789 "rendered" INFO).entry.Timestamp.Nanos
        = Int.tmod 1700000000123456789 second ∧
      (∀ now2 : Int, 0 ≤ now2 →
        mkTimestamp now2 = (mkRecord 1700000000123456789 "rendered" INFO).entry.Timestamp →
        now2 = 1700000000123456789)) :=
  ⟨by decide, by decide,
    C10_timestamp_split cfgA renderOk 1700000000123456789 INFO "info" (some [])
      (mkRecord 1700000000123456789 "rendered" INFO) (by decide) (by decide)⟩

/-- C7: `log` returns at once, with the map untouched and nothing put on the
channel, when the level is below both `SendLevel` and `PrintLevel`; otherwise,
when the rendering of the stamped map succeeds, it puts exactly one record
carrying that level on the channel. Every record `log` puts on the channel is
printed or appended to the batch (or both) by the loop iteration that receives
it. -/
theorem C7_log_gate (cfg : ClientConfig) (marshal : Data → Except String String) (now : Int)
    (level : LogLevel) (levelText : String) (data : Option Data) :
    (level < cfg.SendLevel ∧ level < cfg.PrintLevel →
      log cfg marshal now level levelText data = LogResult.returned data []) ∧
    (¬ (level < cfg.SendLevel ∧ level < cfg.PrintLevel) →
      ∀ pairs buf, data = some pairs →
        marshal (setKey pairs "level" (Value.str levelText)) = Except.ok buf →
        log cfg marshal now level levelText data
          = LogResult.returned (some (setKey pairs "level" (Value.str levelText)))
              [Effect.enqueue { entry := { Timestamp := mkTimestamp now, Line := buf },
                                level := level }]) ∧
    (∀ r ∈ enqueued (log cfg marshal now level levelText data).effects, ∀ st o,
      printedLines (iteration cfg st (Event.entry r) o).2 = [r.entry.Line] ∨
      (iteration cfg st (Event.entry r) o).1 = some (appendEntry st r.entry) ∨
      batches (iteration cfg st (Event.entry r) o).2 = [st.batch ++ [r.entry]]) := by
  refine ⟨?_, ?_, ?_⟩
  · rintro ⟨h1, h2⟩
    have : ¬ (cfg.SendLevel ≤ level ∨ cfg.PrintLevel ≤ level) := by
      rintro (h | h)
      · exact absurd h (not_le.mpr h1)
      · exact absurd h (not_le.mpr h2)
    simp [log, this]
  · intro h pairs buf hdata hbuf
    have hgate : cfg.SendLevel ≤ level ∨ cfg.PrintLevel ≤ level := by
      by_contra hc
      rw [not_or] at hc
      exact h ⟨not_le.mp hc.1, not_le.mp hc.2⟩
    subst hdata
    simp [log, hgate, hbuf]
  · intro r hr st o
    obtain ⟨hgate, hlev, _, _⟩ := log_enqueued cfg marshal now level levelText data r hr
    rw [← hlev] at hgate
    rcases hgate with hsend | hprint
    · right
      by_cases hfull : cfg.BatchEntriesNumber ≤ (appendEntry st r.entry).batchSize
      · right
        simp only [iteration, hsend, hfull, if_true, batches_append, batches_send, batches_shown,
          batches_reset, List.nil_append, List.append_nil, appendEntry_batch]
      · left
        simp only [iteration, hsend, hfull, if_true, if_false]
    · left
      rw [printedLines_iteration_entry]
      simp [hprint]

theorem C7_witness :
    log cfgA renderOk 5 DEBUG "debug" (some [("msg", Value.str "x")])
      = LogResult.returned (some [("msg", Value.str "x")]) [] ∧
    log cfgA renderOk 5 INFO "info" (some [("msg", Value.str "x")])
      = LogResult.returned (some (setKey [("msg", Value.str "x")] "level" (Value.str "info")))
          [Effect.enqueue { entry := { Timestamp := mkTimestamp 5, Line := "rendered" },
                            level := INFO }] :=
  ⟨(C7_log_gate cfgA renderOk 5 DEBUG "debug" (some [("msg", Value.str "x")])).1 (by decide),
   (C7_log_gate cfgA renderOk 5 INFO "info" (some [("msg", Value.str "x")])).2.1 (by decide)
      [("msg", Value.str "x")] "rendered" rfl rfl⟩

/-- C5: the loop iteration that receives a record prints its line iff the
severity is at least `PrintLevel` and appends it to the batch iff the severity
is at least `SendLevel`, each test on its own. Over a whole run the printed
lines are those of the consumed records at or above `PrintLevel`, and every
entry of every transmitted batch comes from a consumed record at or above
`SendLevel`. In scenario B (`SendLevel = ERROR`, `PrintLevel = DEBUG`) the
`INFO` record is printed and no batch is transmitted. -/
theorem C5_print_send_independent (cfg : ClientConfig) (st : State) (r : protoLogEntry)
    (o : Outcome) (evs : List (Event × Outcome)) :
    (printedLines (iteration cfg st (Event.entry r) o).2
      = if cfg.PrintLevel ≤ r.level then [r.entry.Line] else []) ∧
    (cfg.SendLevel ≤ r.level →
      (iteration cfg st (Event.entry r) o).1 = some (appendEntry st r.entry) ∨
      batches (iteration cfg st (Event.entry r) o).2 = [st.batch ++ [r.entry]]) ∧
    (¬ cfg.SendLevel ≤ r.level →
      (iteration cfg st (Event.entry r) o).1 = some st ∧
      batches (iteration cfg st (Event.entry r) o).2 = []) ∧
    printedLines (run cfg evs).2 = printable cfg (consumed evs) ∧
    (∀ b ∈ batches (run cfg evs).2, ∀ e ∈ b,
      ∃ q ∈ consumed evs, q.entry = e ∧ cfg.SendLevel ≤ q.level) ∧
    (enqueued (Info cfgB renderOk 5 (some [("msg", Value.str "x")])).effects = [recB] ∧
      printedLines (run cfgB traceB).2 = ["rendered"] ∧ batches (run cfgB traceB).2 = [] ∧
      (run cfgB traceB).1 = none) := by
  refine ⟨printedLines_iteration_entry cfg st r o, ?_, ?_, runFrom_printedLines cfg evs initState,
    ?_, ?_⟩
  · intro hsend
    by_cases hfull : cfg.BatchEntriesNumber ≤ (appendEntry st r.entry).batchSize
    · right
      simp only [iteration, hsend, hfull, if_true, batches_append, batches_send, batches_shown,
        batches_reset, List.nil_append, List.append_nil, appendEntry_batch]
    · left
      simp only [iteration, hsend, hfull, if_true, if_false]
  · intro hsend
    simp only [iteration, hsend, if_false, batches_shown, and_self]
  · intro b hb e he
    rcases runFrom_batches_sub cfg evs initState b hb e he with h | h
    · simp [initState] at h
    · simp only [sendable, List.mem_map, List.mem_filter, decide_eq_true_eq] at h
      obtain ⟨q, ⟨hq, hlev⟩, heq⟩ := h
      exact ⟨q, hq, heq, hlev⟩
  · decide

theorem C5_witness :
    (iteration cfgB initState (Event.entry recB) accepted).1 = some initState ∧
    batches (iteration cfgB initState (Event.entry recB) accepted).2 = [] :=
  (C5_print_send_independent cfgB initState recB accepted traceB).2.2.1 (by decide)

/-- C6: the loop variables after an iteration do not depend on the outcome of
the transmission; after an iteration that flushed, the batch is empty, the
counter is zero and the loop goes on; `send` hands the batch over once and
posts it at most once. Two runs over the same events with different transmit
outcomes end in the same loop state and hand the same batches to `send`. -/
theorem C6_outcome_independent (cfg : ClientConfig) (evs1 evs2 : List (Event × Outcome))
    (hsame : evs1.map Prod.fst = evs2.map Prod.fst) :
    (∀ st ev o1 o2, (iteration cfg st ev o1).1 = (iteration cfg st ev o2).1) ∧
    (∀ st ev o, flushed (iteration cfg st ev o).2 = true →
      (iteration cfg st ev o).1 = some { batch := [], batchSize := 0 } ∧
      ∃ b, batches (iteration cfg st ev o).2 = [b]) ∧
    (∀ b o, batches (send cfg b o) = [b] ∧ (posts (send cfg b o)).length ≤ 1) ∧
    (run cfg evs1).1 = (run cfg evs2).1 ∧
    batches (run cfg evs1).2 = batches (run cfg evs2).2 :=
  ⟨fun st ev o1 o2 => (iteration_outcome_indep cfg st ev o1 o2).1,
   fun st ev o h => iteration_flush_state cfg st ev o h,
   fun b o => ⟨batches_send cfg b o, posts_send_le cfg b o⟩,
   runFrom_outcome_indep cfg evs1 evs2 initState hsame⟩

theorem C6_witness :
    traceQuit.map Prod.fst = traceQuitFailing.map Prod.fst ∧
    ((∀ st ev o1 o2, (iteration cfgA st ev o1).1 = (iteration cfgA st ev o2).1) ∧
    (∀ st ev o, flushed (iteration cfgA st ev o).2 = true →
      (iteration cfgA st ev o).1 = some { batch := [], batchSize := 0 } ∧
      ∃ b, batches (iteration cfgA st ev o).2 = [b]) ∧
    (∀ b o, batches (send cfgA b o) = [b] ∧ (posts (send cfgA b o)).length ≤ 1) ∧
    (run cfgA traceQuit).1 = (run cfgA traceQuitFailing).1 ∧
    batches (run cfgA traceQuit).2 = batches (run cfgA traceQuitFailing).2) :=
  ⟨by decide, C6_outcome_independent cfgA traceQuit traceQuitFailing (by decide)⟩

/-- C8, the claim refuted: with `PrintLevel = DEBUG` the call `Info` puts its
record on the channel and returns without having printed anything. -/
theorem C8_intake_prints_nothing :
    cfgB.PrintLevel ≤ INFO ∧
    enqueued (Info cfgB renderOk 5 (some [("msg", Value.str "x")])).effects = [recB] ∧
    printedLines (Info cfgB renderOk 5 (some [("msg", Value.str "x")])).effects = [] := by
  decide

/-- C8 as amended: `log` never prints; when the level passes one of the two
thresholds and the rendering succeeds it puts the record on the channel, and
the line is printed by the loop iteration that receives the record, exactly
when the severity is at least `PrintLevel`. -/
theorem C8_print_by_dispatcher (cfg : ClientConfig) (marshal : Data → Except String String)
    (now : Int) (level : LogLevel) (levelText : String) (data : Option Data) :
    printedLines (log cfg marshal now level levelText data).effects = [] ∧
    (∀ pairs buf, (cfg.SendLevel ≤ level ∨ cfg.PrintLevel ≤ level) → data = some pairs →
      marshal (setKey pairs "level" (Value.str levelText)) = Except.ok buf →
      enqueued (log cfg marshal now level levelText data).effects
        = [{ entry := { Timestamp := mkTimestamp now, Line := buf }, level := level }]) ∧
    (∀ r ∈ enqueued (log cfg marshal now level levelText data).effects, ∀ st o,
      printedLines (iteration cfg st (Event.entry r) o).2
        = if cfg.PrintLevel ≤ level then [r.entry.Line] else []) := by
  refine ⟨printedLines_log cfg marshal now level levelText data, ?_, ?_⟩
  · intro pairs buf hgate hdata hbuf
    subst hdata
    simp [log, hgate, hbuf, enqueued, LogResult.effects]
  · intro r hr st o
    obtain ⟨_, hlev, _, _⟩ := log_enqueued cfg marshal now level levelText data r hr
    rw [printedLines_iteration_entry, hlev]

theorem C8_print_by_dispatcher_witness :
    printedLines (iteration cfgB initState (Event.entry recB) accepted).2
      = if cfgB.PrintLevel ≤ INFO then [recB.entry.Line] else [] :=
  (C8_print_by_dispatcher cfgB renderOk 5 INFO "info" (some [("msg", Value.str "x")])).2.2 recB
    (by decide) initState accepted

/-- C3, the claim refuted: with `BatchWait = 10` and batches of two, a record is
flushed by the timer at 10 and the timer fires idle at 20; a record arriving at
25 is pending while 15 units have elapsed since the last flush, so the rule of
the specification calls for a flush, but the loop does not flush; it flushes
at the next timer fire, at 30. -/
theorem C3_not_since_last_flush :
    admissible cfgC (startClocked cfgC 0) 0 (traceIdle ++ [lateArrival, lateFire]) = true ∧
    timedRunFrom cfgC (startClocked cfgC 0) traceIdle = some idleClocked ∧
    specFlushDue cfgC idleClocked lateArrival = true ∧
    flushed (timedIteration cfgC idleClocked lateArrival).2 = false ∧
    (timedIteration cfgC idleClocked lateArrival).1
      = some { st := { batch := [recE2.entry], batchSize := 1 }, deadline := 30, lastFlush := 10 } ∧
    batches (timedIteration cfgC
      { st := { batch := [recE2.entry], batchSize := 1 }, deadline := 30, lastFlush := 10 }
      lateFire).2 = [[recE2.entry]] := by
  decide

/-- C3 as amended: in a state reached by the loop, the iteration for an event
flushes exactly when the event is the arrival of a record to be sent that
brings the pending count to `BatchEntriesNumber` or more, or a timer fire with
a nonzero pending count. A count flush hands over the batch with the new
record and re-arms the timer; an arrival without flush leaves the timer alone;
a timer fire hands over the pending batch, if any, and always re-arms the
timer. After a re-arm at clock reading `t` the timer expires at `t + BatchWait`.
In scenario A the batch of E1 and E2 is handed over on the arrival of E2 and
the batch of E3 on the timer fire. -/
theorem C3_flush_rule (cfg : ClientConfig) (evs : List (Event × Outcome)) (st : State)
    (ev : Event) (o : Outcome)
    (hB : cfg.BatchEntriesNumber ≤ intMax) (hrun : (run cfg evs).1 = some st) :
    flushed (iteration cfg st ev o).2 = codeFlushDue cfg st ev ∧
    (∀ r, ev = Event.entry r → codeFlushDue cfg st ev = true →
      batches (iteration cfg st ev o).2 = [st.batch ++ [r.entry]] ∧
      resets (iteration cfg st ev o).2 = [cfg.BatchWait]) ∧
    (∀ r, ev = Event.entry r → codeFlushDue cfg st ev = false →
      resets (iteration cfg st ev o).2 = []) ∧
    (ev = Event.timer →
      batches (iteration cfg st ev o).2 = (if st.batch ≠ [] then [st.batch] else []) ∧
      resets (iteration cfg st ev o).2 = [cfg.BatchWait]) ∧
    (∀ (t d l : Int) (cs1 : Clocked),
      (timedIteration cfg { st := st, deadline := d, lastFlush := l }
        { now := t, ev := ev, outcome := o }).1 = some cs1 →
      cs1.deadline = if ev = Event.timer ∨ codeFlushDue cfg st ev = true
        then t + cfg.BatchWait else d) ∧
    (batches (run cfgA (traceA.take 1)).2 = [] ∧
      batches (run cfgA (traceA.take 2)).2 = [[recE1.entry, recE2.entry]] ∧
      batches (run cfgA (traceA.take 3)).2 = [[recE1.entry, recE2.entry]] ∧
      batches (run cfgA traceA).2 = [[recE1.entry, recE2.entry], [recE3.entry]]) := by
  have hinv : Inv cfg st := runFrom_inv cfg hB evs initState st (inv_init cfg) hrun
  obtain ⟨hfl, hre⟩ := iteration_obs cfg hB st ev o hinv
  refine ⟨hfl, ?_, ?_, ?_, ?_, ?_⟩
  · intro r hev hdue
    subst hev
    exact iteration_entry_flush cfg hB st r o hinv hdue
  · intro r hev hdue
    subst hev
    exact (iteration_entry_keep cfg hB st r o hinv hdue).2
  · intro hev
    subst hev
    exact iteration_timer cfg st o hinv
  · intro t d l cs1 hcs
    simp only [timedIteration] at hcs
    cases hit : iteration cfg st ev o with
    | mk r effs =>
      rw [hit] at hcs hre
      cases r with
      | none => simp at hcs
      | some st1 =>
        simp only [Option.some.injEq] at hcs
        subst hcs
        simp only at hre
        simp only [hre, Bool.or_eq_true, decide_eq_true_eq]
  · decide

theorem C3_flush_rule_witness :
    cfgA.BatchEntriesNumber ≤ intMax ∧
    (run cfgA (traceA.take 1)).1 = some { batch := [recE1.entry], batchSize := 1 } ∧
    (flushed (iteration cfgA { batch := [recE1.entry], batchSize := 1 } (Event.entry recE2)
        accepted).2
      = codeFlushDue cfgA { batch := [recE1.entry], batchSize := 1 } (Event.entry recE2) ∧
    (∀ r, Event.entry recE2 = Event.entry r →
      codeFlushDue cfgA { batch := [recE1.entry], batchSize := 1 } (Event.entry recE2) = true →
      batches (iteration cfgA { batch := [recE1.entry], batchSize := 1 } (Event.entry recE2)
        accepted).2 = [[recE1.entry] ++ [r.entry]] ∧
      resets (iteration cfgA { batch := [recE1.entry], batchSize := 1 } (Event.entry recE2)
        accepted).2 = [cfgA.BatchWait]) ∧
    (∀ r, Event.entry recE2 = Event.entry r →
      codeFlushDue cfgA { batch := [recE1.entry], batchSize := 1 } (Event.entry recE2) = false →
      resets (iteration cfgA { batch := [recE1.entry], batchSize := 1 } (Event.entry recE2)
        accepted).2 = []) ∧
    (Event.entry recE2 = Event.timer →
      batches (iteration cfgA { batch := [recE1.entry], batchSize := 1 } (Event.entry recE2)
        accepted).2 = (if [recE1.entry] ≠ [] then [[recE1.entry]] else []) ∧
      resets (iteration cfgA { batch := [recE1.entry], batchSize := 1 } (Event.entry recE2)
        accepted).2 = [cfgA.BatchWait]) ∧
    (∀ (t d l : Int) (cs1 : Clocked),
      (timedIteration cfgA
        { st := { batch := [recE1.entry], batchSize := 1 }, deadline := d, lastFlush := l }
        { now := t, ev := Event.entry recE2, outcome := accepted }).1 = some cs1 →
      cs1.deadline = if Event.entry recE2 = Event.timer ∨
          codeFlushDue cfgA { batch := [recE1.entry], batchSize := 1 } (Event.entry recE2) = true
        then t + cfgA.BatchWait else d) ∧
    (batches (run cfgA (traceA.take 1)).2 = [] ∧
      batches (run cfgA (traceA.take 2)).2 = [[recE1.entry, recE2.entry]] ∧
      batches (run cfgA (traceA.take 3)).2 = [[recE1.entry, recE2.entry]] ∧
      batches (run cfgA traceA).2 = [[recE1.entry, recE2.entry], [recE3.entry]])) :=
  ⟨by decide, by decide,
    C3_flush_rule cfgA (traceA.take 1) { batch := [recE1.entry], batchSize := 1 }
      (Event.entry recE2) accepted (by decide) (by decide)⟩

end Promtail
